import Mathlib

/-!
Verification development for the directory traversal logger and email
notifier (`directory_traversal_log_generator.py`).

The program is a single linear pipeline: prompt for a root path, lazily walk
it with `os.walk`, serialize the traversal into
`directory_traversal_log.txt`, email that file, and finally move it to the
trash.  The embedding below models the directory tree a run observes, the
walk order, the exact text produced by `generate_result_log`, the
filesystem as a map from absolute path strings to contents, and the main
sequence as a pure function from its inputs (user inputs, platform
separator, filesystem view, mail outcome) to the run's printed output,
side-effect trace and final filesystem.
-/

namespace DirLogger

/-- A directory's contents as the OS listing presents them: the ordered list
of (name, subtree) pairs for subdirectories, and the ordered list of file
names.  The order is the (platform-specific but fixed) order the underlying
directory listing yields. -/
inductive Dir where
  | mk (subdirs : List (String × Dir)) (files : List String)

/-- One triple yielded by `os.walk`: `(dirpath, dirnames, filenames)`. -/
abbrev Entry := String × List String × List String

/-- The platform path separator rendered as a one-character string. -/
def sepStr (sep : Char) : String := String.singleton sep

mutual

/-- Embedding of iterating `os.walk(path)` over the tree `d` rooted at
`path`: top-down order, each directory yielding
`(path, subdirectory names, file names)`, then recursing into the
subdirectories in listing order, joining paths with the platform separator
as `os.path.join` does. -/
def walk (sep : Char) (path : String) : Dir → List Entry
  | .mk subdirs files =>
    (path, subdirs.map Prod.fst, files) :: walkList sep path subdirs

/-- Walks each subdirectory `(n, d)` of the directory at `path` in order. -/
def walkList (sep : Char) (path : String) : List (String × Dir) → List Entry
  | [] => []
  | (n, d) :: rest => walk sep (path ++ sepStr sep ++ n) d ++ walkList sep path rest

end

/-- Names of the immediate subdirectories of a directory. -/
def Dir.subNames : Dir → List String
  | .mk sd _ => sd.map Prod.fst

/-- File names directly contained in a directory. -/
def Dir.filesOf : Dir → List String
  | .mk _ fs => fs

/-- Ground-truth lookup: the subtree reached from `d` by following the child
names `ns` in order; `none` when no such directory exists.  This is the
specification-side notion of "directory reachable from the root". -/
def dirAtNames : Dir → List String → Option Dir
  | d, [] => some d
  | .mk sd _, n :: ns =>
    match sd.find? (fun p => p.1 == n) with
    | some p => dirAtNames p.2 ns
    | none => none

/-- The path string of the directory reached from `root` by following names
`ns`, joining with the separator as `os.path.join` does. -/
def pathOf (sep : Char) (root : String) : List String → String
  | [] => root
  | n :: ns => pathOf sep (root ++ sepStr sep ++ n) ns

mutual

/-- Ground-truth enumeration of all directories reachable from `d`: each as
(the sequence of child names leading to it, its subtree). -/
def annot : Dir → List (List String × Dir)
  | .mk sd fs => ([], .mk sd fs) :: annotList sd

/-- The reachable directories strictly below the subdirectory list `sd`. -/
def annotList : List (String × Dir) → List (List String × Dir)
  | [] => []
  | (n, d) :: rest => (annot d).map (fun p => (n :: p.1, p.2)) ++ annotList rest

end

mutual

/-- A directory tree is well formed when, at every level, the listed names
are pairwise distinct and no name contains the path separator — the
guarantees a real filesystem listing provides. -/
def wellFormed (sep : Char) : Dir → Bool
  | .mk sd _ => decide (sd.map Prod.fst).Nodup && wfSubs sep sd

/-- Well-formedness of a subdirectory list: each name is separator-free and
each subtree is well formed. -/
def wfSubs (sep : Char) : List (String × Dir) → Bool
  | [] => true
  | (n, d) :: rest => decide (sep ∉ n.data) && wellFormed sep d && wfSubs sep rest

end

/-- Character-level view of joining name components: each component is
preceded by one separator character. -/
def joinC (sep : Char) : List (List Char) → List Char
  | [] => []
  | n :: ns => sep :: (n ++ joinC sep ns)

/-- The timestamp captured by `datetime.now()` in `setup`, as the strings the
log interpolates: `str(watch.date())`, `str(watch.time())` and
`watch.strftime('%A')`. -/
structure Watch where
  dateStr : String
  timeStr : String
  dayStr : String

/-- The header block written by `generate_result_log` before the traversal
loop: title line, blank line, then Date, Time, Day, Host name and Username
lines, with no newline after the Username line. -/
def renderHeader (watch : Watch) (host user : String) : String :=
  "THE DIRECTORY TRAVERSAL LOG:\n\n" ++
  "Date: " ++ watch.dateStr ++ "\n" ++
  "Time: " ++ watch.timeStr ++ "\n" ++
  "Day: " ++ watch.dayStr ++ "\n" ++
  "Host name: " ++ host ++ "\n" ++
  "Username: " ++ user

/-- The separator the code writes before each FOLDER line: the two adjacent
string literals of the source, one of 35 and one of 39 equals signs. -/
def codeSeparator : String :=
  String.mk (List.replicate 35 '=') ++ String.mk (List.replicate 39 '=')

/-- One `------> name` line as written inside the Subfolders and Files
sections. -/
def renderName (x : String) : String := "\n------> " ++ x

/-- The text `generate_result_log` writes for one traversal entry: blank
line, separator line, FOLDER line, the Subfolders section, the Files
section. -/
def renderEntry (e : Entry) : String :=
  "\n\n" ++ codeSeparator ++
  "\nFOLDER: " ++ e.1 ++
  "\n---> Subfolders:" ++ String.join (e.2.1.map renderName) ++
  "\n---> Files:" ++ String.join (e.2.2.map renderName)

/-- The concatenation of all entry renderings, in traversal order. -/
def renderEntries (es : List Entry) : String := String.join (es.map renderEntry)

/-- The complete content of `directory_traversal_log.txt` produced by one
run: header followed by the rendered traversal entries. -/
def renderLog (watch : Watch) (host user : String) (es : List Entry) : String :=
  renderHeader watch host user ++ renderEntries es

/-- Modelled from the spec: the separator line displayed in the format block
of section 4.2, a line of exactly 67 equals signs. -/
def specSeparator : String :=
  String.mk (List.replicate 67 '=')

/-- Modelled from the spec: the rendering of one traversal entry following
the format block of section 4.2 — each entry preceded by the separator line,
then the `FOLDER:` line, the `---> Subfolders:` line with one `------> name`
line per subfolder, and the `---> Files:` line with one `------> name` line
per file. -/
def specRenderEntry (e : Entry) : String :=
  "\n\n" ++ specSeparator ++
  "\nFOLDER: " ++ e.1 ++
  "\n---> Subfolders:" ++ String.join (e.2.1.map renderName) ++
  "\n---> Files:" ++ String.join (e.2.2.map renderName)

/-- Modelled from the spec: the complete artifact content according to the
format block of section 4.2. -/
def specRenderLog (watch : Watch) (host user : String) (es : List Entry) : String :=
  renderHeader watch host user ++ String.join (es.map specRenderEntry)

/-- The section 4.2 format with the separator length corrected to the 74
equals signs the code actually writes; otherwise identical to
`specRenderEntry`. -/
def specRenderEntry74 (e : Entry) : String :=
  "\n\n" ++ String.mk (List.replicate 74 '=') ++
  "\nFOLDER: " ++ e.1 ++
  "\n---> Subfolders:" ++ String.join (e.2.1.map renderName) ++
  "\n---> Files:" ++ String.join (e.2.2.map renderName)

/-- The corrected-format artifact content: header then 74-equals-sign
separated entries. -/
def specRenderLog74 (watch : Watch) (host user : String) (es : List Entry) : String :=
  renderHeader watch host user ++ String.join (es.map specRenderEntry74)

/-- The local disk, as a map from absolute path strings to file contents. -/
abbrev FS := String → Option String

/-- Writing a whole file: Python `open(name, mode w plus)` truncates any
existing file at the path and the subsequent writes leave exactly the new
content there; other paths are untouched. -/
def FS.set (fs : FS) (p c : String) : FS :=
  fun q => if q = p then some c else fs q

/-- `send2trash`: the file at `p` is moved away from its working location
(into the recoverable trash), so it no longer exists at `p`. -/
def FS.remove (fs : FS) (p : String) : FS :=
  fun q => if q = p then none else fs q

/-- The hardcoded file name `generate_result_log` passes to `open`, relative
to the current working directory. -/
def logFileName : String := "directory_traversal_log.txt"

/-- OS resolution of a cwd-relative name: the working directory, the
platform separator, the name. -/
def resolveRelative (sep : Char) (cwd name : String) : String :=
  cwd ++ sepStr sep ++ name

/-- The attachment path built in `send_email`, and the identical expression
passed to `send2trash` in the main block:
`os.getcwd() + r"\directory_traversal_log.txt"`, i.e. the working directory
followed by a literal backslash and the file name. -/
def mailerAttachmentPath (cwd : String) : String :=
  cwd ++ "\\directory_traversal_log.txt"

/-- The value `os.walk(path)` returns at call time: a generator that merely
remembers its argument.  CPython performs no filesystem access until the
generator is first iterated. -/
structure WalkGen where
  root : String

/-- Result of `setup`: either the generator/timestamp pair returned from the
`try` block, or the `except` branch (print the error, `exit(0)`). -/
inductive SetupResult where
  | ok (tree : WalkGen) (watch : Watch)
  | errorExit (msg : String)

/-- The call `os.walk(path)` inside the `try` block of `setup`.  CPython's
`os.walk` is lazy: calling it only constructs a generator and raises
nothing, whatever the path argument is (inaccessible directories surface
later, during iteration, where the default `onerror=None` silently ignores
them).  The embedding therefore never returns an exception. -/
def osWalkCall (path : String) : Except String WalkGen := .ok ⟨path⟩

/-- The call `datetime.now()` inside the `try` block of `setup`: always
returns the current timestamp. -/
def datetimeNowCall (watch : Watch) : Except String Watch := .ok watch

/-- The body of `setup`'s `try` block: build the walk generator, capture the
timestamp, return both. -/
def setupTry (path : String) (watch : Watch) : Except String (WalkGen × Watch) := do
  let t ← osWalkCall path
  let w ← datetimeNowCall watch
  return (t, w)

/-- Embedding of `setup`: run the `try` block; on an exception print
`ERROR OCCURRED: ...` and terminate via `exit(0)`. -/
def setup (path : String) (watch : Watch) : SetupResult :=
  match setupTry path watch with
  | .ok (t, w) => .ok t w
  | .error e => .errorExit ("ERROR OCCURRED: " ++ e)

/-- Iterating the walk generator: if a directory exists at the root path in
the filesystem view, its tree is walked; a nonexistent or inaccessible root
yields no entries at all (CPython `os.walk` with the default `onerror=None`
silently skips what it cannot list). -/
def osWalkEntries (view : String → Option Dir) (sep : Char) (path : String) : List Entry :=
  match view path with
  | some d => walk sep path d
  | none => []

/-- Observable side effects of a run, in program order. -/
inductive Event where
  | logClosed
  | mailRead (path : String)
  | mailDone (raised : Bool)
  | trashed (path : String)
deriving DecidableEq

/-- Outcome of `generate_result_log`: filesystem after the write, lines
printed, events, and whether the process exited inside `setup`. -/
structure GenResult where
  fs : FS
  output : List String
  trace : List Event
  exited : Bool

/-- Embedding of `generate_result_log`: run `setup`; on its error exit the
process stops with the diagnostic and no file is touched.  Otherwise the
with-block opens `directory_traversal_log.txt` (resolved against the working
directory), writes the header and then one block per `os.walk` entry, closes
the file, and `All done :)` is printed. -/
def generate_result_log (view : String → Option Dir) (sep : Char) (cwd : String)
    (fs : FS) (pathInput : String) (watch : Watch) (host user : String) : GenResult :=
  match setup pathInput watch with
  | .errorExit msg => { fs := fs, output := [msg], trace := [], exited := true }
  | .ok tree w =>
    let entries := osWalkEntries view sep tree.root
    let content := renderLog w host user entries
    { fs := fs.set (resolveRelative sep cwd logFileName) content
      output := ["\nAll done :)"]
      trace := [.logClosed]
      exited := false }

/-- The five lines `info()` prints (the last `print` spans two adjacent
string literals in the source). -/
def infoLines : List String :=
  ["Instructions:",
   "---> This is a directory traversal log generator.",
   "---> Input format for path is exactly as usual",
   "--->only difference is that there are 2 backslashes in place of one.",
   "---> The result file will be generated at the same " ++
     "location from where you are running this script."]

/-- Outcome of a whole run of the main block. -/
structure RunResult where
  fs : FS
  output : List String
  trace : List Event
  exited : Bool

/-- Embedding of the main block: `info()`, `generate_result_log()`, then
`send_email` inside `try/except` (the mailer reads the attachment at
`os.getcwd() + r"\directory_traversal_log.txt"`; on success
`Email sent successfully` is printed, on any exception the exception is
printed), and finally `send2trash` on the same path.  `mailOutcome` is the
outcome of the network send, decided by the outside world. -/
def mainRun (view : String → Option Dir) (sep : Char) (cwd : String) (fs : FS)
    (pathInput : String) (watch : Watch) (host user : String)
    (mailOutcome : Except String Unit) : RunResult :=
  let g := generate_result_log view sep cwd fs pathInput watch host user
  if g.exited then
    { fs := g.fs, output := infoLines ++ g.output, trace := g.trace, exited := true }
  else
    let ap := mailerAttachmentPath cwd
    match mailOutcome with
    | .ok _ =>
      { fs := g.fs.remove ap
        output := infoLines ++ g.output ++ ["Email sent successfully"]
        trace := g.trace ++ [.mailRead ap, .mailDone false, .trashed ap]
        exited := false }
    | .error e =>
      { fs := g.fs.remove ap
        output := infoLines ++ g.output ++ [e]
        trace := g.trace ++ [.mailRead ap, .mailDone true, .trashed ap]
        exited := false }

/-- The round-trip example tree of spec section 8.5: a root containing
folders `A` and `B`, with `A` containing the single file `x.txt`. -/
def exampleTree : Dir :=
  .mk [("A", .mk [] ["x.txt"]), ("B", .mk [] [])] []

mutual

theorem walk_eq_annot (sep : Char) (root : String) (d : Dir) :
    walk sep root d =
      (annot d).map (fun p => (pathOf sep root p.1, p.2.subNames, p.2.filesOf)) := by
  match d with
  | .mk sd fs =>
    simp only [walk, annot, List.map_cons]
    rw [walkList_eq_annotList sep root sd]
    rfl

theorem walkList_eq_annotList (sep : Char) (root : String) (sd : List (String × Dir)) :
    walkList sep root sd =
      (annotList sd).map (fun p => (pathOf sep root p.1, p.2.subNames, p.2.filesOf)) := by
  match sd with
  | [] => rfl
  | (n, d) :: rest =>
    simp only [walkList, annotList, List.map_append, List.map_map]
    rw [walk_eq_annot sep (root ++ sepStr sep ++ n) d,
        walkList_eq_annotList sep root rest]
    rfl

end

theorem wellFormed_mk {sep : Char} {sd : List (String × Dir)} {fs : List String}
    (h : wellFormed sep (.mk sd fs) = true) :
    (sd.map Prod.fst).Nodup ∧ wfSubs sep sd = true := by
  simp only [wellFormed, Bool.and_eq_true, decide_eq_true_eq] at h
  exact h

theorem wfSubs_cons {sep : Char} {n : String} {d : Dir} {rest : List (String × Dir)}
    (h : wfSubs sep ((n, d) :: rest) = true) :
    sep ∉ n.data ∧ wellFormed sep d = true ∧ wfSubs sep rest = true := by
  simp only [wfSubs, Bool.and_eq_true, decide_eq_true_eq] at h
  exact ⟨h.1.1, h.1.2, h.2⟩

theorem find?_of_mem_nodup {sd : List (String × Dir)} {n : String} {d : Dir}
    (hn : (sd.map Prod.fst).Nodup) (hm : (n, d) ∈ sd) :
    sd.find? (fun p => p.1 == n) = some (n, d) := by
  induction sd with
  | nil => cases hm
  | cons hd tl ih =>
    rcases List.mem_cons.mp hm with h | h
    · rw [← h]
      exact List.find?_cons_of_pos _ (by simp)
    · have hne : hd.1 ≠ n := by
        intro he
        have hmem : n ∈ tl.map Prod.fst := List.mem_map.mpr ⟨(n, d), h, rfl⟩
        rw [List.map_cons] at hn
        exact (List.nodup_cons.mp hn).1 (he ▸ hmem)
      rw [List.find?_cons_of_neg _ (by simp [hne])]
      exact ih ((List.map_cons _ _ _ ▸ hn).of_cons) h

theorem annotList_mem_head {sd : List (String × Dir)} {ns : List String} {dd : Dir}
    (h : (ns, dd) ∈ annotList sd) :
    ∃ n ns' d', ns = n :: ns' ∧ (n, d') ∈ sd ∧ (ns', dd) ∈ annot d' := by
  induction sd with
  | nil => cases h
  | cons hd tl ih =>
    obtain ⟨n, d⟩ := hd
    rw [annotList, List.mem_append] at h
    rcases h with h | h
    · obtain ⟨⟨ns', dd'⟩, hmem, heq⟩ := List.mem_map.mp h
      simp only [Prod.mk.injEq] at heq
      exact ⟨n, ns', d, heq.1.symm, List.mem_cons_self _ _, heq.2 ▸ hmem⟩
    · obtain ⟨m, ns', d', h1, h2, h3⟩ := ih h
      exact ⟨m, ns', d', h1, List.mem_cons_of_mem _ h2, h3⟩

theorem dirAtNames_cons_ne {n m : String} {d : Dir}
    {rest : List (String × Dir)} {fs : List String} {ns : List String}
    (hne : n ≠ m) :
    dirAtNames (.mk ((n, d) :: rest) fs) (m :: ns) = dirAtNames (.mk rest fs) (m :: ns) := by
  rw [dirAtNames, dirAtNames, List.find?_cons_of_neg _ (by simp [hne])]

mutual

theorem annot_sound (sep : Char) (d : Dir) (h : wellFormed sep d = true) :
    ∀ ns dd, (ns, dd) ∈ annot d → dirAtNames d ns = some dd := by
  match d with
  | .mk sd fs =>
    intro ns dd hm
    rw [annot, List.mem_cons] at hm
    rcases hm with hm | hm
    · simp only [Prod.mk.injEq] at hm
      rw [hm.1, hm.2, dirAtNames]
    · exact annotList_sound sep sd fs (wellFormed_mk h).1 (wellFormed_mk h).2 ns dd hm

theorem annotList_sound (sep : Char) (sd : List (String × Dir)) (fs : List String)
    (hn : (sd.map Prod.fst).Nodup) (h : wfSubs sep sd = true) :
    ∀ ns dd, (ns, dd) ∈ annotList sd → dirAtNames (.mk sd fs) ns = some dd := by
  match sd with
  | [] => intro ns dd hm; cases hm
  | (n, d) :: rest =>
    intro ns dd hm
    rw [annotList, List.mem_append] at hm
    rcases hm with hm | hm
    · obtain ⟨⟨ns', dd'⟩, hmem, heq⟩ := List.mem_map.mp hm
      simp only [Prod.mk.injEq] at heq
      rw [← heq.1, ← heq.2, dirAtNames, List.find?_cons_of_pos _ (by simp)]
      exact annot_sound sep d (wfSubs_cons h).2.1 ns' dd' hmem
    · obtain ⟨m, ns', d', h1, h2, h3⟩ := annotList_mem_head hm
      have hne : n ≠ m := by
        intro he
        rw [List.map_cons] at hn
        exact (List.nodup_cons.mp hn).1 (he ▸ List.mem_map.mpr ⟨(m, d'), h2, rfl⟩)
      rw [h1, dirAtNames_cons_ne hne]
      have := annotList_sound sep rest fs ((List.map_cons _ _ _ ▸ hn).of_cons) (wfSubs_cons h).2.2 ns dd hm
      rw [h1] at this
      exact this

end

theorem mem_annotList_of_mem {sd : List (String × Dir)} {p : String × Dir}
    (hpm : p ∈ sd) {x : List String × Dir} (hx : x ∈ annot p.2) :
    (p.1 :: x.1, x.2) ∈ annotList sd := by
  induction sd with
  | nil => cases hpm
  | cons hd tl ih =>
    obtain ⟨m, e⟩ := hd
    rw [annotList, List.mem_append]
    rcases List.mem_cons.mp hpm with he | he
    · subst he
      exact Or.inl (List.mem_map.mpr ⟨x, hx, rfl⟩)
    · right; exact ih he

theorem annot_complete :
    ∀ (ns : List String) (d dd : Dir), dirAtNames d ns = some dd → (ns, dd) ∈ annot d := by
  intro ns
  induction ns with
  | nil =>
    intro d dd h
    rw [dirAtNames, Option.some.injEq] at h
    match d with
    | .mk sd fs => rw [← h, annot]; exact List.mem_cons_self _ _
  | cons n ns ih =>
    intro d dd h
    match d with
    | .mk sd fs =>
      rw [dirAtNames] at h
      cases hf : sd.find? (fun p => p.1 == n) with
      | none => rw [hf] at h; cases h
      | some p =>
        rw [hf] at h
        have hp1 : p.1 = n := by simpa using List.find?_some hf
        have hpm := List.mem_of_find?_eq_some hf
        have hrec := ih p.2 dd h
        rw [annot, List.mem_cons]
        right
        have := mem_annotList_of_mem hpm hrec
        rw [hp1] at this
        exact this

theorem mem_annotList_fst {sd : List (String × Dir)} {y : List String}
    (h : y ∈ (annotList sd).map Prod.fst) :
    ∃ n ns', y = n :: ns' ∧ n ∈ sd.map Prod.fst := by
  obtain ⟨⟨ns, dd⟩, hp, he⟩ := List.mem_map.mp h
  obtain ⟨n, ns', d', h1, h2, _⟩ := annotList_mem_head hp
  exact ⟨n, ns', he ▸ h1, List.mem_map.mpr ⟨(n, d'), h2, rfl⟩⟩

mutual

theorem annot_fst_nodup (sep : Char) (d : Dir) (h : wellFormed sep d = true) :
    ((annot d).map Prod.fst).Nodup := by
  match d with
  | .mk sd fs =>
    rw [annot, List.map_cons, List.nodup_cons]
    refine ⟨fun hc => ?_, annotList_fst_nodup sep sd (wellFormed_mk h).1 (wellFormed_mk h).2⟩
    obtain ⟨n, ns', h1, _⟩ := mem_annotList_fst hc
    cases h1

theorem annotList_fst_nodup (sep : Char) (sd : List (String × Dir))
    (hn : (sd.map Prod.fst).Nodup) (h : wfSubs sep sd = true) :
    ((annotList sd).map Prod.fst).Nodup := by
  match sd with
  | [] => exact List.nodup_nil
  | (n, d) :: rest =>
    rw [annotList, List.map_append, List.map_map]
    have hin : Function.Injective (fun ns : List String => n :: ns) :=
      fun a b hab => (List.cons.injEq .. ▸ hab).2
    have hleft : ((annot d).map (Prod.fst ∘ fun p => (n :: p.1, p.2))).Nodup := by
      have : (Prod.fst ∘ fun p : List String × Dir => (n :: p.1, p.2)) =
          (fun ns => n :: ns) ∘ Prod.fst := rfl
      rw [this, ← List.map_map]
      exact (annot_fst_nodup sep d (wfSubs_cons h).2.1).map hin
    have hright := annotList_fst_nodup sep rest
      ((List.map_cons _ _ _ ▸ hn).of_cons) (wfSubs_cons h).2.2
    refine hleft.append hright ?_
    intro y hy hy'
    obtain ⟨⟨ns, dd⟩, _, he⟩ := List.mem_map.mp hy
    obtain ⟨m, ms', h1, h2⟩ := mem_annotList_fst hy'
    rw [← he] at h1
    have hm : m = n := ((List.cons.injEq .. ▸ h1).1).symm
    rw [List.map_cons] at hn
    exact (List.nodup_cons.mp hn).1 (hm ▸ h2)

end

mutual

theorem annot_sepFree (sep : Char) (d : Dir) (h : wellFormed sep d = true) :
    ∀ p ∈ annot d, ∀ n ∈ p.1, sep ∉ n.data := by
  match d with
  | .mk sd fs =>
    intro p hp n hn
    rw [annot, List.mem_cons] at hp
    rcases hp with hp | hp
    · rw [hp] at hn; cases hn
    · exact annotList_sepFree sep sd (wellFormed_mk h).2 p hp n hn

theorem annotList_sepFree (sep : Char) (sd : List (String × Dir))
    (h : wfSubs sep sd = true) :
    ∀ p ∈ annotList sd, ∀ n ∈ p.1, sep ∉ n.data := by
  match sd with
  | [] => intro p hp; cases hp
  | (m, d) :: rest =>
    intro p hp n hn
    rw [annotList, List.mem_append] at hp
    rcases hp with hp | hp
    · obtain ⟨⟨ns', dd'⟩, hmem, heq⟩ := List.mem_map.mp hp
      rw [← heq] at hn
      rcases List.mem_cons.mp hn with he | he
      · exact he ▸ (wfSubs_cons h).1
      · exact annot_sepFree sep d (wfSubs_cons h).2.1 (ns', dd') hmem n he
    · exact annotList_sepFree sep rest (wfSubs_cons h).2.2 p hp n hn

end

theorem joinC_head (sep : Char) (ns : List (List Char)) :
    joinC sep ns = [] ∨ (joinC sep ns).head? = some sep := by
  cases ns with
  | nil => exact Or.inl rfl
  | cons n ns => exact Or.inr rfl

theorem token_eq (sep : Char) :
    ∀ (a b x y : List Char), sep ∉ a → sep ∉ b →
      (x = [] ∨ x.head? = some sep) → (y = [] ∨ y.head? = some sep) →
      a ++ x = b ++ y → a = b ∧ x = y := by
  intro a
  induction a with
  | nil =>
    intro b x y _ hb hx _ he
    rw [List.nil_append] at he
    cases b with
    | nil => exact ⟨rfl, by rw [List.nil_append] at he; exact he⟩
    | cons c b' =>
      exfalso
      rcases hx with hx | hx
      · rw [hx] at he; cases he
      · rw [he] at hx
        have : c = sep := by
          rw [List.cons_append] at hx
          simpa using hx
        exact hb (this ▸ List.mem_cons_self _ _)
  | cons c a' ih =>
    intro b x y ha hb hx hy he
    cases b with
    | nil =>
      exfalso
      rw [List.nil_append] at he
      rcases hy with hy | hy
      · rw [hy, List.cons_append] at he; cases he
      · rw [← he] at hy
        have : c = sep := by
          rw [List.cons_append] at hy
          simpa using hy
        exact ha (this ▸ List.mem_cons_self _ _)
    | cons c' b' =>
      rw [List.cons_append, List.cons_append] at he
      injection he with h1 h2
      obtain ⟨hab, hxy⟩ := ih b' x y (fun hm => ha (List.mem_cons_of_mem _ hm))
        (fun hm => hb (List.mem_cons_of_mem _ hm)) hx hy h2
      exact ⟨by rw [h1, hab], hxy⟩

theorem joinC_inj (sep : Char) :
    ∀ ns1 ns2 : List (List Char), (∀ n ∈ ns1, sep ∉ n) → (∀ n ∈ ns2, sep ∉ n) →
      joinC sep ns1 = joinC sep ns2 → ns1 = ns2 := by
  intro ns1
  induction ns1 with
  | nil =>
    intro ns2 _ _ he
    cases ns2 with
    | nil => rfl
    | cons n2 t2 => rw [joinC, joinC] at he; cases he
  | cons n1 t1 ih =>
    intro ns2 h1 h2 he
    cases ns2 with
    | nil => rw [joinC, joinC] at he; cases he
    | cons n2 t2 =>
      rw [joinC, joinC] at he
      injection he with _ h
      obtain ⟨ha, hb⟩ := token_eq sep n1 n2 (joinC sep t1) (joinC sep t2)
        (h1 n1 (List.mem_cons_self _ _)) (h2 n2 (List.mem_cons_self _ _))
        (joinC_head sep t1) (joinC_head sep t2) h
      rw [ha, ih t2 (fun n hn => h1 n (List.mem_cons_of_mem _ hn))
        (fun n hn => h2 n (List.mem_cons_of_mem _ hn)) hb]

theorem pathOf_data (sep : Char) :
    ∀ (ns : List String) (root : String),
      (pathOf sep root ns).data = root.data ++ joinC sep (ns.map String.data) := by
  intro ns
  induction ns with
  | nil => intro root; rw [pathOf, List.map_nil, joinC, List.append_nil]
  | cons n t ih =>
    intro root
    rw [pathOf, ih, List.map_cons, joinC, String.data_append, String.data_append,
      List.append_assoc]
    simp [sepStr, String.singleton]

theorem pathOf_inj (sep : Char) (root : String) {ns1 ns2 : List String}
    (h1 : ∀ n ∈ ns1, sep ∉ n.data) (h2 : ∀ n ∈ ns2, sep ∉ n.data)
    (he : pathOf sep root ns1 = pathOf sep root ns2) : ns1 = ns2 := by
  have hd := congrArg String.data he
  rw [pathOf_data, pathOf_data] at hd
  have hj := List.append_cancel_left hd
  have := joinC_inj sep (ns1.map String.data) (ns2.map String.data)
    (fun n hn => by obtain ⟨s, hs, rfl⟩ := List.mem_map.mp hn; exact h1 s hs)
    (fun n hn => by obtain ⟨s, hs, rfl⟩ := List.mem_map.mp hn; exact h2 s hs) hj
  exact List.map_injective_iff.mpr (fun a b hab => String.ext hab) this

/-- The resolved name the Log Writer writes to and the literal-backslash path
the Mailer and Disposer use denote the same file on a backslash-separator
platform. -/
theorem resolveRelative_backslash (cwd : String) :
    resolveRelative '\\' cwd logFileName = mailerAttachmentPath cwd := by
  apply String.ext
  simp only [resolveRelative, mailerAttachmentPath, logFileName, sepStr,
    String.data_append]
  rw [show (String.singleton '\\').data = ['\\'] from rfl, List.append_assoc]
  rfl

/-- Unfolding of `generate_result_log` in the (always-taken) successful-setup
case. -/
theorem generate_result_log_eq (view : String → Option Dir) (sep : Char)
    (cwd : String) (fs : FS) (pathInput : String) (watch : Watch) (host user : String) :
    generate_result_log view sep cwd fs pathInput watch host user =
      { fs := fs.set (resolveRelative sep cwd logFileName)
          (renderLog watch host user (osWalkEntries view sep pathInput))
        output := ["\nAll done :)"]
        trace := [.logClosed]
        exited := false } := rfl

/-- The trace of a full run: the log write and close, then the mailer reading
the attachment, the mail attempt completing (raised or not), then the trash
move — for either mail outcome. -/
theorem mainRun_trace (view : String → Option Dir) (sep : Char) (cwd : String)
    (fs : FS) (pathInput : String) (watch : Watch) (host user : String)
    (mailOutcome : Except String Unit) :
    ∃ b, (mainRun view sep cwd fs pathInput watch host user mailOutcome).trace =
      [.logClosed, .mailRead (mailerAttachmentPath cwd), .mailDone b,
       .trashed (mailerAttachmentPath cwd)] := by
  cases mailOutcome with
  | ok u => exact ⟨false, rfl⟩
  | error e => exact ⟨true, rfl⟩

/-- C1: the claim asserts that an inaccessible root path entered at the
prompt makes the program print a diagnostic and exit before the Log Writer
runs, leaving no log artifact.  The code does the opposite: `os.walk` is
lazy, so `setup` returns normally, a header-only log is written at the fixed
path, `All done :)` is printed and the run continues — evaluated here at a
root path that exists nowhere in the filesystem view. -/
theorem C1_missing_root_still_writes_log :
    (generate_result_log (fun _ => none) '\\' "C:\\work" (fun _ => none)
        "Z:\\nope" ⟨"2025-04-21", "10:00:00.000000", "Monday"⟩ "host" "user").exited = false ∧
    (generate_result_log (fun _ => none) '\\' "C:\\work" (fun _ => none)
        "Z:\\nope" ⟨"2025-04-21", "10:00:00.000000", "Monday"⟩ "host" "user").output =
      ["\nAll done :)"] ∧
    (generate_result_log (fun _ => none) '\\' "C:\\work" (fun _ => none)
        "Z:\\nope" ⟨"2025-04-21", "10:00:00.000000", "Monday"⟩ "host" "user").fs
        (resolveRelative '\\' "C:\\work" logFileName) =
      some (renderLog ⟨"2025-04-21", "10:00:00.000000", "Monday"⟩ "host" "user" []) := by
  refine ⟨rfl, rfl, ?_⟩
  rw [generate_result_log_eq]
  simp [FS.set, osWalkEntries]

/-- C2: when mail dispatch raises any exception, the main block prints the
exception and still proceeds to the Disposer, which removes the log artifact
from its working location; the run completes without the exception
propagating (shown on the backslash-separator platform the program's path
handling targets). -/
theorem C2_mail_failure_swallowed_then_trashed (view : String → Option Dir)
    (cwd : String) (fs : FS) (pathInput : String) (watch : Watch)
    (host user e : String) :
    (mainRun view '\\' cwd fs pathInput watch host user (.error e)).output =
      infoLines ++ ["\nAll done :)", e] ∧
    (mainRun view '\\' cwd fs pathInput watch host user (.error e)).exited = false ∧
    (mainRun view '\\' cwd fs pathInput watch host user (.error e)).trace =
      [.logClosed, .mailRead (mailerAttachmentPath cwd), .mailDone true,
       .trashed (mailerAttachmentPath cwd)] ∧
    (mainRun view '\\' cwd fs pathInput watch host user (.error e)).fs
        (resolveRelative '\\' cwd logFileName) = none := by
  refine ⟨rfl, rfl, rfl, ?_⟩
  show FS.remove _ (mailerAttachmentPath cwd) _ = none
  rw [FS.remove, resolveRelative_backslash, if_pos rfl]

/-- C3: for every well-formed tree, the FOLDER components of the walk cover
exactly the directories reachable from the root — every reachable directory
appears (rendered at its path, with its actual subfolder names and file
names), nothing else appears, and no path appears twice. -/
theorem C3_folder_lines_cover_reachable (sep : Char) (root : String) (d : Dir)
    (hwf : wellFormed sep d = true) :
    (∀ ns dd, dirAtNames d ns = some dd →
        (pathOf sep root ns, dd.subNames, dd.filesOf) ∈ walk sep root d) ∧
    (∀ e ∈ walk sep root d, ∃ ns dd, dirAtNames d ns = some dd ∧
        e = (pathOf sep root ns, dd.subNames, dd.filesOf)) ∧
    ((walk sep root d).map Prod.fst).Nodup := by
  refine ⟨?_, ?_, ?_⟩
  · intro ns dd h
    rw [walk_eq_annot]
    exact List.mem_map.mpr ⟨(ns, dd), annot_complete ns d dd h, rfl⟩
  · intro e he
    rw [walk_eq_annot] at he
    obtain ⟨⟨ns, dd⟩, hp, he⟩ := List.mem_map.mp he
    exact ⟨ns, dd, annot_sound sep d hwf ns dd hp, he.symm⟩
  · rw [walk_eq_annot, List.map_map]
    have hc : (Prod.fst ∘ fun p : List String × Dir =>
        (pathOf sep root p.1, p.2.subNames, p.2.filesOf)) = pathOf sep root ∘ Prod.fst := rfl
    rw [hc, ← List.map_map]
    refine List.Nodup.map_on ?_ (annot_fst_nodup sep d hwf)
    intro x hx y hy hxy
    obtain ⟨px, hpx, rfl⟩ := List.mem_map.mp hx
    obtain ⟨py, hpy, rfl⟩ := List.mem_map.mp hy
    exact pathOf_inj sep root (fun n hn => annot_sepFree sep d hwf px hpx n hn)
      (fun n hn => annot_sepFree sep d hwf py hpy n hn) hxy

/-- Witness for C3 at the concrete round-trip tree. -/
theorem C3_folder_lines_cover_reachable_witness :
    wellFormed '/' exampleTree = true ∧
    ((∀ ns dd, dirAtNames exampleTree ns = some dd →
        (pathOf '/' "root" ns, dd.subNames, dd.filesOf) ∈ walk '/' "root" exampleTree) ∧
     (∀ e ∈ walk '/' "root" exampleTree, ∃ ns dd, dirAtNames exampleTree ns = some dd ∧
        e = (pathOf '/' "root" ns, dd.subNames, dd.filesOf)) ∧
     ((walk '/' "root" exampleTree).map Prod.fst).Nodup) :=
  ⟨by decide, C3_folder_lines_cover_reachable '/' "root" exampleTree (by decide)⟩

set_option maxRecDepth 4000 in
/-- C4 counterexample: the artifact the code writes does not match the
section 4.2 format verbatim — at a one-entry traversal the two renderings
differ (the code writes a 74-equals-sign separator, the format block shows
67). -/
theorem C4_format_counterexample :
    renderLog ⟨"2025-04-21", "10:00:00.000000", "Monday"⟩ "host" "user"
        [("root", [], [])] ≠
      specRenderLog ⟨"2025-04-21", "10:00:00.000000", "Monday"⟩ "host" "user"
        [("root", [], [])] := by
  decide

/-- C4 (amended): the Log Writer produces a single UTF-8 artifact at the
fixed cwd-relative path `directory_traversal_log.txt` whose content is the
section 4.2 format with a separator line of 74 equals signs: the header
lines, then per traversal entry the separator, the FOLDER line, the
Subfolders section and the Files section. -/
theorem C4_log_format_with_74_separator (view : String → Option Dir) (sep : Char)
    (cwd : String) (fs : FS) (pathInput : String) (watch : Watch) (host user : String) :
    (generate_result_log view sep cwd fs pathInput watch host user).fs
        (resolveRelative sep cwd logFileName) =
      some (specRenderLog74 watch host user (osWalkEntries view sep pathInput)) := by
  have hentry : renderEntry = specRenderEntry74 := by
    funext e
    rw [renderEntry, specRenderEntry74,
      show codeSeparator = String.mk (List.replicate 74 '=') by decide]
  rw [generate_result_log_eq]
  show FS.set _ _ _ _ = _
  rw [FS.set, if_pos rfl, renderLog, renderEntries, hentry, specRenderLog74]

/-- C5: in every run, the log file is fully written and closed before the
Mailer reads it, and the Disposer's trash move happens only after the
Mailer's attempt (success or raise) has completed: in the run trace, any
mail-read event is preceded by the log-close event, and any trash event is
preceded by a completed mail attempt. -/
theorem C5_close_before_read_before_trash (view : String → Option Dir) (sep : Char)
    (cwd : String) (fs : FS) (pathInput : String) (watch : Watch) (host user : String)
    (mailOutcome : Except String Unit) :
    (∀ i p, (mainRun view sep cwd fs pathInput watch host user mailOutcome).trace[i]? =
        some (Event.mailRead p) →
      ∃ j : Nat, j < i ∧
        (mainRun view sep cwd fs pathInput watch host user mailOutcome).trace[j]? =
          some Event.logClosed) ∧
    (∀ i p, (mainRun view sep cwd fs pathInput watch host user mailOutcome).trace[i]? =
        some (Event.trashed p) →
      ∃ (j : Nat) (b : Bool), j < i ∧
        (mainRun view sep cwd fs pathInput watch host user mailOutcome).trace[j]? =
          some (Event.mailDone b)) := by
  obtain ⟨b, ht⟩ := mainRun_trace view sep cwd fs pathInput watch host user mailOutcome
  rw [ht]
  constructor
  · intro i p h
    rcases i with _ | (_ | (_ | (_ | n)))
    · simp at h
    · exact ⟨0, by omega, rfl⟩
    · simp at h
    · simp at h
    · simp at h
  · intro i p h
    rcases i with _ | (_ | (_ | (_ | n)))
    · simp at h
    · simp at h
    · simp at h
    · exact ⟨2, b, by omega, rfl⟩
    · simp at h

/-- C6: two runs against the same unchanged root (same filesystem view, same
host and user) with different capture timestamps write artifacts whose
content past the header — the FOLDER/Subfolders/Files sections — is byte
identical; only the header may differ. -/
theorem C6_rerun_same_body (view : String → Option Dir) (sep : Char) (cwd : String)
    (fs1 fs2 : FS) (pathInput : String) (w1 w2 : Watch) (host user : String) :
    (generate_result_log view sep cwd fs1 pathInput w1 host user).fs
        (resolveRelative sep cwd logFileName) =
      some (renderHeader w1 host user ++ renderEntries (osWalkEntries view sep pathInput)) ∧
    (generate_result_log view sep cwd fs2 pathInput w2 host user).fs
        (resolveRelative sep cwd logFileName) =
      some (renderHeader w2 host user ++ renderEntries (osWalkEntries view sep pathInput)) ∧
    (renderHeader w1 host user ++
        renderEntries (osWalkEntries view sep pathInput)).data.drop
        (renderHeader w1 host user).data.length =
      (renderHeader w2 host user ++
        renderEntries (osWalkEntries view sep pathInput)).data.drop
        (renderHeader w2 host user).data.length := by
  refine ⟨?_, ?_, ?_⟩
  · rw [generate_result_log_eq]; show FS.set _ _ _ _ = _; rw [FS.set, if_pos rfl]; rfl
  · rw [generate_result_log_eq]; show FS.set _ _ _ _ = _; rw [FS.set, if_pos rfl]; rfl
  · rw [String.data_append, String.data_append, List.drop_left, List.drop_left]

/-- C7: for a root containing exactly folders A and B where A contains
exactly x.txt, the walk entry for the root lists subfolders A and B, and the
entry for root/A lists x.txt under files and nothing under subfolders. -/
theorem C7_roundtrip_example :
    ("root", ["A", "B"], ([] : List String)) ∈ walk '/' "root" exampleTree ∧
    ("root/A", ([] : List String), ["x.txt"]) ∈ walk '/' "root" exampleTree := by
  decide

/-- C8: when a file already exists at the artifact path, the Log Writer's
`open(..., mode w plus)` truncates it and the resulting content is exactly
the freshly rendered log, independent of the pre-existing content. -/
theorem C8_overwrites_existing (view : String → Option Dir) (sep : Char)
    (cwd : String) (fs : FS) (pathInput : String) (watch : Watch) (host user old : String)
    (_h : fs (resolveRelative sep cwd logFileName) = some old) :
    (generate_result_log view sep cwd fs pathInput watch host user).fs
        (resolveRelative sep cwd logFileName) =
      some (renderLog watch host user (osWalkEntries view sep pathInput)) := by
  rw [generate_result_log_eq]
  show FS.set _ _ _ _ = _
  rw [FS.set, if_pos rfl]

/-- Witness for C8: a filesystem holding a pre-existing artifact, replaced by
the new log. -/
theorem C8_overwrites_existing_witness :
    (fun q => if q = resolveRelative '/' "home" logFileName then some "OLD" else none :
        FS) (resolveRelative '/' "home" logFileName) = some "OLD" ∧
    (generate_result_log (fun _ => none) '/' "home"
        (fun q => if q = resolveRelative '/' "home" logFileName then some "OLD" else none)
        "p" ⟨"d", "t", "y"⟩ "h" "u").fs (resolveRelative '/' "home" logFileName) =
      some (renderLog ⟨"d", "t", "y"⟩ "h" "u" (osWalkEntries (fun _ => none) '/' "p")) :=
  ⟨by decide, C8_overwrites_existing (fun _ => none) '/' "home" _ "p" ⟨"d", "t", "y"⟩
    "h" "u" "OLD" (by decide)⟩

/-- C9: for every input path, `setup` returns normally with the walk
generator and the captured timestamp; the `except` handler that would print
an error and exit is unreachable, because `os.walk` merely constructs a lazy
generator and raises nothing at call time. -/
theorem C9_setup_never_exits (path : String) (watch : Watch) :
    (∀ msg, setup path watch ≠ SetupResult.errorExit msg) ∧
    setup path watch = .ok ⟨path⟩ watch :=
  ⟨fun _ h => SetupResult.noConfusion h, rfl⟩

/-- C10: the Mailer's and Disposer's path (cwd, a literal backslash, the file
name) and the Log Writer's OS-resolved cwd-relative path denote the same
file exactly when the platform separator is the backslash. -/
theorem C10_paths_alias_iff_backslash (sep : Char) (cwd : String) :
    mailerAttachmentPath cwd = resolveRelative sep cwd logFileName ↔ sep = '\\' := by
  constructor
  · intro h
    simp only [mailerAttachmentPath, resolveRelative, logFileName, sepStr] at h
    have hd := congrArg String.data h
    rw [String.data_append, String.data_append, String.data_append,
      show ("\\directory_traversal_log.txt" : String).data =
        '\\' :: ("directory_traversal_log.txt" : String).data by decide,
      show (String.singleton sep).data = [sep] from rfl, List.append_assoc] at hd
    have hc := List.append_cancel_left hd
    rw [List.cons_append] at hc
    exact ((List.cons.injEq .. ▸ hc).1).symm
  · intro h
    rw [h, resolveRelative_backslash]

end DirLogger
